import Mathlib

set_option maxRecDepth 20000

/-!
Shallow embedding of the core of the mysql_to_dgraph_pipline repository
(package `pipeline`): the schema extractor and relationship resolver
(`ExtractSchema`, `DetectForeignKeysByConvention`, `MySQLToDgraphType`,
`IsForeignKey`), the RDF emitter (`convertRowToRDF`, `generateRowUID`,
`getOrCreateUID`, `escapeRDFValue`, `isForeignKey`, `writeUIDMappings`),
the Dgraph schema generator (`generatePredicates`, `pluralize`) and the
chunked exporter (`ExportInChunks`, `CreateChunk`).

Go strings are modelled as Lean `String`; Go `map` values are modelled as
association lists with overwrite-on-insert (`mapSet`); Go `float64`
confidences are modelled as `ℚ`.  Iteration over a Go map is modelled as
iteration over the corresponding association list in list order.
-/

namespace MTD

/-- Model of Go `strings.ToLower` (ASCII inputs). -/
def goToLower (s : String) : String := ⟨s.data.map Char.toLower⟩

/-- Model of Go `strings.HasSuffix`. -/
def goEndsWith (s suf : String) : Bool := suf.data.isSuffixOf s.data

/-- Model of Go `strings.HasPrefix`. -/
def goStartsWith (s p : String) : Bool := p.data.isPrefixOf s.data

/-- Model of Go `strings.TrimSuffix`. -/
def goTrimSuffix (s suf : String) : String :=
  if goEndsWith s suf then ⟨s.data.take (s.data.length - suf.data.length)⟩ else s

/-- Model of Go `strings.TrimPrefix`. -/
def goTrimStart (s p : String) : String :=
  if goStartsWith s p then ⟨s.data.drop p.data.length⟩ else s

/-- Model of Go `strings.Contains` (substring test). -/
def goContains (s sub : String) : Bool :=
  s.data.tails.any (fun t => sub.data.isPrefixOf t)

/-- Model of Go `strings.Split(s, "_")`: split at every underscore, keeping
empty fields. -/
def splitUnderscoreChars : List Char → List (List Char)
  | [] => [[]]
  | x :: xs =>
    match splitUnderscoreChars xs, x == '_' with
    | r :: rs, true => [] :: r :: rs
    | r :: rs, false => (x :: r) :: rs
    | [], _ => [[]]

/-- String-level wrapper of `splitUnderscoreChars`. -/
def goSplitUnderscore (s : String) : List String :=
  (splitUnderscoreChars s.data).map (fun l => ⟨l⟩)

/-- Model of Go `strings.Join(parts, "_")`. -/
def goJoinUnderscore (parts : List String) : String :=
  String.intercalate "_" parts

/-- Association-list overwrite-insert, modelling assignment `m[k] = v` on a
Go map. -/
def mapSet (m : List (String × String)) (k v : String) : List (String × String) :=
  match m with
  | [] => [(k, v)]
  | (k', v') :: rest => if k' == k then (k, v) :: rest else (k', v') :: mapSet rest k v

/-! ## Data model (struct definitions from the `pipeline` package) -/

/-- The `Column` struct (fields `Name` and `Type`; the Go field `Type` is
renamed `Ctype` because `Type` is reserved in Lean). -/
structure Column where
  Name : String
  Ctype : String
  deriving DecidableEq, Repr

/-- The `Table` struct: `Columns` is a Go map from name to column, modelled
as the list of columns (each keyed by its `Name`). -/
structure Table where
  Name : String
  Columns : List Column
  PrimaryKeys : List String
  RowCount : Int
  deriving DecidableEq, Repr

/-- The `ForeignKey` struct. -/
structure ForeignKey where
  ConstraintName : String
  TableName : String
  ColumnName : String
  RefTableName : String
  RefColumnName : String
  UpdateRule : String
  DeleteRule : String
  deriving DecidableEq, Repr

/-- The `Schema` struct (`Tables` is a Go map from table name to table,
modelled as an association list; `Indexes` is not needed by any claim). -/
structure Schema where
  Database : String
  Tables : List (String × Table)
  Relationships : List ForeignKey
  deriving DecidableEq, Repr

/-- Lookup of `schema.Tables[name]`. -/
def lookupTable (schema : Schema) (name : String) : Option Table :=
  schema.Tables.lookup name

/-- The `RelationshipCandidate` produced by the data analyzer, as consumed
by `ExtractSchema` (fields `FromTable`, `FromColumn`, `ToTable`, `ToColumn`,
`Confidence`); `Confidence` is a Go `float64`, modelled as `ℚ`. -/
structure Candidate where
  FromTable : String
  FromColumn : String
  ToTable : String
  ToColumn : String
  Confidence : ℚ
  deriving DecidableEq

/-! ## Type mapper and naming-convention test (source file of `ExtractSchema`) -/

/-- The function `MySQLToDgraphType` exactly as in the source: a switch whose
first case tests for the integer families, then float, then bool, then
dates, then json, defaulting to string. -/
def MySQLToDgraphType (mysqlType : String) : String :=
  let t := goToLower mysqlType
  if goContains t "int" || goContains t "bigint" ||
      goContains t "smallint" || goContains t "mediumint" then "int"
  else if goContains t "float" || goContains t "double" ||
      goContains t "decimal" then "float"
  else if goContains t "bool" || t == "tinyint(1)" then "bool"
  else if t == "date" then "datetime"
  else if goContains t "datetime" || goContains t "timestamp" then "datetime"
  else if goContains t "json" then "string"
  else "string"

/-- The exported function `IsForeignKey`: a column name is a convention
candidate when, lowercased, it is not exactly `id` and has suffix `_id`,
`_key`, `_ref` or starts with `id_` or `fk_`. -/
def IsForeignKey (columnName : String) : Bool :=
  let c := goToLower columnName
  if c == "id" then false
  else goEndsWith c "_id" || goEndsWith c "_key" || goEndsWith c "_ref" ||
    goStartsWith c "id_" || goStartsWith c "fk_"

/-- The base-name switch shared by `DetectForeignKeysByConvention` and the
emitter fallback in `isForeignKey`: strip the matched affix from the
lowercased column name. -/
def baseNameOf (columnName : String) : String :=
  let columnLower := goToLower columnName
  if goEndsWith columnLower "_id" then goTrimSuffix columnLower "_id"
  else if goEndsWith columnLower "_key" then goTrimSuffix columnLower "_key"
  else if goEndsWith columnLower "_ref" then goTrimSuffix columnLower "_ref"
  else if goStartsWith columnLower "id_" then goTrimStart columnLower "id_"
  else if goStartsWith columnLower "fk_" then goTrimStart columnLower "fk_"
  else columnLower

/-- The method `detectCommonTablePrefixes`: first underscore-component (plus
`_`) of each table name containing `_`, kept when it occurs in at least two
tables; the Go map of counts is modelled by counting in the projected list,
deduplicating in first-occurrence order. -/
def detectCommonTablePrefixes (existingTables : List String) : List String :=
  let ps := existingTables.filterMap (fun t =>
    if goContains t "_" then some ((goSplitUnderscore t).headD "" ++ "_") else none)
  ps.dedup.filter (fun p => 2 ≤ ps.count p)

/-- Candidate referenced-table names tried by `DetectForeignKeysByConvention`
for one column, in source order: direct/plural forms, the self-reference
cases, prefixed forms, and the compound-name forms. -/
def conventionCandidates (existingTables : List String)
    (tableName columnName : String) : List String :=
  let baseName := baseNameOf columnName
  let cands := [baseName, baseName ++ "s", baseName ++ "es", baseName ++ "ies"]
  let cands := if baseName == "parent" || baseName == "original" ||
      columnName == tableName ++ "_id" then cands ++ [tableName] else cands
  let commonPres := detectCommonTablePrefixes existingTables
  let cands := cands ++ commonPres.flatMap (fun p =>
    [p ++ baseName, p ++ baseName ++ "s", p ++ baseName ++ "es"])
  if goContains baseName "_" then
    let parts := goSplitUnderscore baseName
    if 1 < parts.length then
      let lastPart := parts.getLastD ""
      let withoutLast := goJoinUnderscore parts.dropLast
      cands ++
        [withoutLast ++ "_" ++ lastPart ++ "s",
         withoutLast ++ "_" ++ lastPart ++ "es",
         goJoinUnderscore parts ++ "s"] ++
        commonPres.flatMap (fun p =>
          [p ++ withoutLast ++ "_" ++ lastPart ++ "s",
           p ++ goJoinUnderscore parts ++ "s"])
    else cands
  else cands

/-- The method `DetectForeignKeysByConvention`: for every table column that
passes `IsForeignKey`, take the first candidate table that exists and build
a `ForeignKey` with `RefColumnName` `id`; columns with no existing candidate
are skipped.  Existing relationships are never consulted. -/
def DetectForeignKeysByConvention (schema : Schema) : List ForeignKey :=
  let existingTables := schema.Tables.map Prod.fst
  schema.Tables.flatMap (fun tpair =>
    tpair.2.Columns.filterMap (fun col =>
      if IsForeignKey col.Name then
        match (conventionCandidates existingTables tpair.1 col.Name).find?
            (fun cand => existingTables.contains cand) with
        | some referencedTable =>
          some { ConstraintName := "fk_" ++ tpair.1 ++ "_" ++ col.Name
                 TableName := tpair.1
                 ColumnName := col.Name
                 RefTableName := referencedTable
                 RefColumnName := "id"
                 UpdateRule := "CASCADE"
                 DeleteRule := "RESTRICT" }
        | none => none
      else none))

/-! ## Merge and conflict resolution inside `ExtractSchema` -/

/-- The literal `0.5` compared against `candidate.Confidence` in
`ExtractSchema` (stored in lowest terms so that comparisons compute). -/
def ratHalf : ℚ := ⟨1, 2, by norm_num, by norm_num⟩

/-- The literal `0.8` compared against `candidate.Confidence` in
`ExtractSchema` (stored in lowest terms so that comparisons compute). -/
def ratFourFifths : ℚ := ⟨4, 5, by norm_num, by norm_num⟩

/-- The key string `fmt.Sprintf("%s.%s", table, column)` used by the
`existingRelationships` map in `ExtractSchema`. -/
def relKey (t c : String) : String := t ++ "." ++ c

/-- The `ForeignKey` built from an accepted data-driven candidate in
`ExtractSchema`. -/
def candidateFK (cand : Candidate) : ForeignKey :=
  { ConstraintName := "data_fk_" ++ cand.FromTable ++ "_" ++ cand.FromColumn
    TableName := cand.FromTable
    ColumnName := cand.FromColumn
    RefTableName := cand.ToTable
    RefColumnName := cand.ToColumn
    UpdateRule := "CASCADE"
    DeleteRule := "RESTRICT" }

/-- State of the candidate loop in `ExtractSchema`: the mutable
`schema.Relationships`, the `existingRelationships` map, and the `dataFKs`
slice. -/
structure MergeState where
  rels : List ForeignKey
  existing : List (String × String)
  dataFKs : List ForeignKey

/-- One iteration of the candidate loop in `ExtractSchema` (lines 127-181 of
the extractor source): candidates with confidence above 0.5 are inserted;
a conflicting entry is removed, whatever its origin, when the confidence is
above 0.8, and otherwise the candidate is dropped. -/
def mergeStep (s : MergeState) (cand : Candidate) : MergeState :=
  if ratHalf < cand.Confidence then
    let key := relKey cand.FromTable cand.FromColumn
    match s.existing.lookup key with
    | some _ =>
      if ratFourFifths < cand.Confidence then
        { rels := s.rels.filter (fun fk =>
            !(fk.TableName == cand.FromTable && fk.ColumnName == cand.FromColumn))
          existing := mapSet s.existing key cand.ToTable
          dataFKs := s.dataFKs ++ [candidateFK cand] }
      else s
    | none =>
      { s with existing := mapSet s.existing key cand.ToTable
               dataFKs := s.dataFKs ++ [candidateFK cand] }
  else s

/-- The relationship portion of `ExtractSchema`: declared keys, then the
convention candidates appended verbatim, then the data-driven candidate
loop, then `dataFKs` appended.  The declared keys and the analyzer
candidates are inputs (they come from the database). -/
def resolveRelationships (declared : List ForeignKey) (schema0 : Schema)
    (cands : List Candidate) : List ForeignKey :=
  let rels0 := declared ++ DetectForeignKeysByConvention schema0
  let existing0 := rels0.foldl
    (fun m fk => mapSet m (relKey fk.TableName fk.ColumnName) fk.RefTableName) []
  let s := cands.foldl mergeStep { rels := rels0, existing := existing0, dataFKs := [] }
  s.rels ++ s.dataFKs

/-! ## RDF emitter (the `DataProcessor` methods) -/

/-- The candidate referenced-table names tried by the emitter fallback in
the method `isForeignKey` of `DataProcessor` (this fallback, unlike
`DetectForeignKeysByConvention`, tries no table-name prefixes and no
compound forms). -/
def fkFallbackCandidates (tableName columnName : String) : List String :=
  let baseName := baseNameOf columnName
  let cands := [baseName, baseName ++ "s", baseName ++ "es", baseName ++ "ies"]
  if baseName == "parent" || baseName == "original" ||
      columnName == tableName ++ "_id" then cands ++ [tableName] else cands

/-- The method `isForeignKey` of `DataProcessor`: collect the relationships
matching `(table, column)` and use the first; with none, fall back to the
naming convention and the first existing candidate table. -/
def isForeignKey (tableName columnName : String) (schema : Schema) : Bool × String :=
  let foundRelationships := (schema.Relationships.filter (fun fk =>
    fk.TableName == tableName && fk.ColumnName == columnName)).map ForeignKey.RefTableName
  match foundRelationships with
  | r :: _ => (true, r)
  | [] =>
    if IsForeignKey columnName then
      match (fkFallbackCandidates tableName columnName).find?
          (fun cand => (lookupTable schema cand).isSome) with
      | some cand => (true, cand)
      | none => (false, "")
    else (false, "")

/-- The method `generateRowUID`: value of the first column whose lowercased
name is `id` or ends in `_id`, else (also when that value is empty) the
first column value; the label is `_:<table>_<value>` with no sanitization.
The table's declared primary keys are not consulted. -/
def generateRowUID (tableName : String) (cols values : List String) : String :=
  let pkValue := match (cols.zip values).find? (fun cv =>
      goToLower cv.1 == "id" || goEndsWith (goToLower cv.1) "_id") with
    | some cv => cv.2
    | none => ""
  let pkValue := if pkValue == "" && decide (0 < values.length)
    then values.headD "" else pkValue
  "_:" ++ tableName ++ "_" ++ pkValue

/-- The method `getOrCreateUID`: key `<table>:<id>`; return the stored label
when present, else store and return `_:<table>_<id>`.  The double-checked
locking of the source collapses to a single lookup in this sequential
model. -/
def getOrCreateUID (uidMap : List (String × String)) (tableName id : String) :
    String × List (String × String) :=
  let key := tableName ++ ":" ++ id
  match uidMap.lookup key with
  | some uid => (uid, uidMap)
  | none =>
    let uid := "_:" ++ tableName ++ "_" ++ id
    (uid, mapSet uidMap key uid)

/-- One single-character pass of Go `strings.ReplaceAll` (every pattern used
by `escapeRDFValue` is a single character). -/
def replaceChar (pat : Char) (repl : List Char) (l : List Char) : List Char :=
  l.flatMap (fun c => if c == pat then repl else [c])

/-- The method `escapeRDFValue`: five sequential `strings.ReplaceAll`
passes, backslash first, then double-quote, newline, carriage return,
tab. -/
def escapeRDFValue (value : String) : String :=
  let l := value.data
  let l := replaceChar '\\' ['\\', '\\'] l
  let l := replaceChar '"' ['\\', '"'] l
  let l := replaceChar '\n' ['\\', 'n'] l
  let l := replaceChar '\r' ['\\', 'r'] l
  let l := replaceChar '\t' ['\\', 't'] l
  ⟨l⟩

/-- The column loop of `convertRowToRDF`, threading the shared UID map:
empty and `null` values are skipped; foreign-key columns emit the forward
edge followed by the `_reverse` edge; other columns emit an escaped literal
triple. -/
def convertColumns (tableName rowUID : String) (schema : Schema) :
    List (String × String) → List (String × String) → List String × List (String × String)
  | [], uidMap => ([], uidMap)
  | cv :: rest, uidMap =>
    if cv.2 == "" || goToLower cv.2 == "null" then
      convertColumns tableName rowUID schema rest uidMap
    else
      let predicate := tableName ++ "." ++ cv.1
      match isForeignKey tableName cv.1 schema with
      | (true, refTable) =>
        let ru := getOrCreateUID uidMap refTable cv.2
        let ls := convertColumns tableName rowUID schema rest ru.2
        ((rowUID ++ " <" ++ predicate ++ "> " ++ ru.1 ++ " .") ::
         (ru.1 ++ " <" ++ predicate ++ "_reverse> " ++ rowUID ++ " .") :: ls.1, ls.2)
      | (false, _) =>
        let ls := convertColumns tableName rowUID schema rest uidMap
        ((rowUID ++ " <" ++ predicate ++ "> \"" ++ escapeRDFValue cv.2 ++ "\" .") :: ls.1,
         ls.2)

/-- The method `convertRowToRDF`: the `dgraph.type` declaration for the
`generateRowUID` label, followed by the column lines. -/
def convertRowToRDF (tableName : String) (cols values : List String)
    (schema : Schema) (uidMap : List (String × String)) :
    List String × List (String × String) :=
  let rowUID := generateRowUID tableName cols values
  let ls := convertColumns tableName rowUID schema (cols.zip values) uidMap
  ((rowUID ++ " <dgraph.type> \"" ++ tableName ++ "\" .") :: ls.1, ls.2)

/-- A row as consumed by the emitter: table name, ordered column names,
ordered raw values. -/
structure Row where
  table : String
  cols : List String
  values : List String

/-- Sequential conversion of a list of rows, threading the shared UID map
(the worker-pool interleaving only changes the order of map insertions, not
the inserted keys). -/
def processRows (schema : Schema) (rows : List Row) (uidMap : List (String × String)) :
    List (String × String) :=
  rows.foldl (fun m r => (convertRowToRDF r.table r.cols r.values schema m).2) uidMap

/-- The method `writeUIDMappings`: one `key=label` line per map entry. -/
def writeUIDMappings (uidMap : List (String × String)) : List String :=
  uidMap.map (fun kv => kv.1 ++ "=" ++ kv.2)

/-! ## Dgraph schema generator (the `SchemaGenerator` methods) -/

/-- The `PredicateInfo` struct (Go fields `Type` and `List` are renamed
`Ptype` and `IsList`; both are reserved words in Lean). -/
structure PredicateInfo where
  Name : String
  Ptype : String
  Index : String
  Reverse : Bool
  IsList : Bool
  Count : Bool
  Upsert : Bool
  deriving DecidableEq, Repr

/-- Association-list overwrite-insert for the predicate map of
`generatePredicates`. -/
def pmapSet (m : List (String × PredicateInfo)) (k : String) (v : PredicateInfo) :
    List (String × PredicateInfo) :=
  match m with
  | [] => [(k, v)]
  | (k', v') :: rest => if k' == k then (k, v) :: rest else (k', v') :: pmapSet rest k v

/-- The method `pluralize`: suffixes `s`, `x`, `z`, `ch`, `sh` get `es`;
final `y` after a consonant becomes `ies`; final `f` or `fe` becomes `ves`;
everything else gets `s`. -/
def pluralize (name : String) : String :=
  let n := goToLower name
  let l := n.data
  if goEndsWith n "s" || goEndsWith n "x" || goEndsWith n "z" ||
      goEndsWith n "ch" || goEndsWith n "sh" then n ++ "es"
  else if goEndsWith n "y" && decide (1 < l.length) &&
      (let secondLast := l.getD (l.length - 2) ' '
       !(secondLast == 'a') && !(secondLast == 'e') && !(secondLast == 'i') &&
       !(secondLast == 'o') && !(secondLast == 'u')) then
    (⟨l.take (l.length - 1)⟩ : String) ++ "ies"
  else if goEndsWith n "f" then (⟨l.take (l.length - 1)⟩ : String) ++ "ves"
  else if goEndsWith n "fe" then (⟨l.take (l.length - 2)⟩ : String) ++ "ves"
  else n ++ "s"

/-- The method `getIndexType`: exact index for strings whose column name
contains `id`, `email` or `username`, term index for other strings, and the
type-named index for int, float, bool and datetime. -/
def getIndexType (dgraphType : String) (column : Column) : String :=
  if dgraphType == "string" then
    if goContains (goToLower column.Name) "id" ||
        goContains (goToLower column.Name) "email" ||
        goContains (goToLower column.Name) "username" then "@index(exact)"
    else "@index(term)"
  else if dgraphType == "int" then "@index(int)"
  else if dgraphType == "float" then "@index(float)"
  else if dgraphType == "bool" then "@index(bool)"
  else if dgraphType == "dateTime" || dgraphType == "datetime" then "@index(hour)"
  else ""

/-- The method `isUpsertCandidate`: primary keys and columns whose name
contains `email`, `username`, `slug`, `code` or `uuid`. -/
def isUpsertCandidate (tableName columnName : String) (schema : Schema) : Bool :=
  match lookupTable schema tableName with
  | none => false
  | some table =>
    if table.PrimaryKeys.contains columnName then true
    else
      let columnLower := goToLower columnName
      ["email", "username", "slug", "code", "uuid"].any
        (fun pat => goContains columnLower pat)

/-- The column portion of `generatePredicates`: one predicate per table
column with mapped type, index and upsert flag. -/
def columnPredicates (schema : Schema) : List (String × PredicateInfo) :=
  schema.Tables.foldl (fun m tpair =>
    tpair.2.Columns.foldl (fun m col =>
      let predicateName := tpair.1 ++ "." ++ col.Name
      let dgraphType := MySQLToDgraphType col.Ctype
      pmapSet m predicateName
        { Name := predicateName
          Ptype := dgraphType
          Index := getIndexType dgraphType col
          Reverse := false
          IsList := false
          Count := false
          Upsert := isUpsertCandidate tpair.1 col.Name schema }) m) []

/-- One relationship iteration of `generatePredicates`: the forward
predicate is overridden to `uid @reverse`, a `_reverse` list predicate is
added, and a semantic `<target>.<plural(table)>` list predicate is added
when absent. -/
def relPredStep (m : List (String × PredicateInfo)) (fk : ForeignKey) :
    List (String × PredicateInfo) :=
  let fkPredicateName := fk.TableName ++ "." ++ fk.ColumnName
  let m := match m.lookup fkPredicateName with
    | some pred => pmapSet m fkPredicateName
        { pred with Ptype := "uid", Reverse := true, Index := "" }
    | none => pmapSet m fkPredicateName
        { Name := fkPredicateName, Ptype := "uid", Index := ""
          Reverse := true, IsList := false, Count := false, Upsert := false }
  let reversePredicateName := fk.TableName ++ "." ++ fk.ColumnName ++ "_reverse"
  let m := pmapSet m reversePredicateName
    { Name := reversePredicateName, Ptype := "uid", Index := ""
      Reverse := true, IsList := true, Count := false, Upsert := false }
  let semanticReverseName := fk.RefTableName ++ "." ++ pluralize fk.TableName
  if (m.lookup semanticReverseName).isSome then m
  else pmapSet m semanticReverseName
    { Name := semanticReverseName, Ptype := "uid", Index := ""
      Reverse := true, IsList := true, Count := false, Upsert := false }

/-- The method `generatePredicates`: column predicates, then one
`relPredStep` per relationship. -/
def generatePredicates (schema : Schema) : List (String × PredicateInfo) :=
  schema.Relationships.foldl relPredStep (columnPredicates schema)

/-! ## Chunked exporter (`ChunkedExporter`) -/

/-- The `ChunkInfo` struct (field `Size` is never populated by
`ExportInChunks` and is omitted). -/
structure ChunkInfo where
  Index : Nat
  Filename : String
  Records : Nat
  deriving DecidableEq, Repr

/-- Chunk file name minted by `CreateChunk` with format `rdf`. -/
def chunkFileName (n : Nat) : String := "data_chunk_" ++ toString n ++ ".rdf"

/-- State of the `ExportInChunks` loop: the manifest built so far, the
record count of the open chunk, and the index and name of the open chunk
(`CreateChunk` increments the counter before naming the file, so the first
chunk is `data_chunk_1.rdf`). -/
structure ExportState where
  chunks : List ChunkInfo
  chunkRecords : Nat
  currentChunk : Nat
  currentFilename : String
  deriving Repr

/-- The initial state after the first `CreateChunk` call. -/
def initExportState : ExportState :=
  { chunks := [], chunkRecords := 0, currentChunk := 1,
    currentFilename := chunkFileName 1 }

/-- The roll check at the top of the batch loop of `ExportInChunks`: when
the open chunk has reached `chunkSize` records it is flushed, closed,
recorded in the manifest, and the next chunk file is created. -/
def rollIfFull (chunkSize : Nat) (s : ExportState) : ExportState :=
  if chunkSize ≤ s.chunkRecords then
    { chunks := s.chunks ++
        [{ Index := s.currentChunk, Filename := s.currentFilename,
           Records := s.chunkRecords }]
      chunkRecords := 0
      currentChunk := s.currentChunk + 1
      currentFilename := chunkFileName (s.currentChunk + 1) }
  else s

/-- One batch iteration of `ExportInChunks`: the roll check, then the batch
of `batchProcessed` records appended to the open chunk. -/
def stepBatch (chunkSize : Nat) (s : ExportState) (batchProcessed : Nat) : ExportState :=
  let s := rollIfFull chunkSize s
  { s with chunkRecords := s.chunkRecords + batchProcessed }

/-- The manifest produced by `ExportInChunks`: each table contributes its
list of per-batch processed counts; a final non-empty chunk is closed and
recorded at the end. -/
def ExportInChunks (chunkSize : Nat) (tables : List (List Nat)) : List ChunkInfo :=
  let s := tables.foldl (fun s batches => batches.foldl (stepBatch chunkSize) s)
    initExportState
  if 0 < s.chunkRecords then
    s.chunks ++
      [{ Index := s.currentChunk, Filename := s.currentFilename,
         Records := s.chunkRecords }]
  else s.chunks

/-! ## Specification-side definitions (for refinement-style statements) -/

/-- Modelled from the spec: per-character RDF escape map — backslash,
double-quote, newline, carriage return and tab get a backslash escape,
every other character is kept.  Used to compare the sequential
`strings.ReplaceAll` chain of `escapeRDFValue` against the specified escape
set. -/
def rdfEscapeCharSpec (c : Char) : List Char :=
  if c == '\\' then ['\\', '\\']
  else if c == '"' then ['\\', '"']
  else if c == '\n' then ['\\', 'n']
  else if c == '\r' then ['\\', 'r']
  else if c == '\t' then ['\\', 't']
  else [c]

/-- The set of characters the claims allow inside a blank-node label body:
letters, digits and underscore. -/
def isWordChar (c : Char) : Bool := c.isAlpha || c.isDigit || c == '_'

/-- Shape of the column portion of one emitted row: a sequence of blocks,
each block either a single quoted-literal triple or a forward edge
immediately followed by its `_reverse` companion (same subject, predicate
and object, one of each, and no third triple in the block). -/
inductive EmissionShape : List String → Prop
  | nil : EmissionShape []
  | lit (s p v : String) (rest : List String) :
      EmissionShape rest →
      EmissionShape ((s ++ " <" ++ p ++ "> \"" ++ v ++ "\" .") :: rest)
  | edge (s p o : String) (rest : List String) :
      EmissionShape rest →
      EmissionShape ((s ++ " <" ++ p ++ "> " ++ o ++ " .") ::
        (o ++ " <" ++ p ++ "_reverse> " ++ s ++ " .") :: rest)

/-- The `(from_table, from_column)` pair of a relationship entry. -/
def fkPair (fk : ForeignKey) : String × String := (fk.TableName, fk.ColumnName)

/-- The pairs of a relationship list. -/
def pairsOf (l : List ForeignKey) : List (String × String) := l.map fkPair

/-- The `(from_table, from_column)` pair of a data-analyzer candidate. -/
def candPair (c : Candidate) : String × String := (c.FromTable, c.FromColumn)

/-- The UID-map key recorded for one row column, when the column is
classified as a foreign key and its value is not skipped. -/
def columnFKKey (t : String) (schema : Schema) (cv : String × String) : Option String :=
  if cv.2 == "" || goToLower cv.2 == "null" then none
  else match isForeignKey t cv.1 schema with
    | (true, refTable) => some (refTable ++ ":" ++ cv.2)
    | (false, _) => none

/-- All UID-map keys recorded while converting one row. -/
def rowFKKeys (schema : Schema) (r : Row) : List String :=
  (r.cols.zip r.values).filterMap (columnFKKey r.table schema)

/-- Invariant of the `ExportInChunks` loop: closed chunks respect the
record bound, the open-chunk counter respects it as well, and chunk
indexes and filenames are consecutive from 1. -/
def ExportInv (chunkSize B : Nat) (s : ExportState) : Prop :=
  (∀ c ∈ s.chunks, c.Records ≤ chunkSize - 1 + B) ∧
  s.chunkRecords ≤ chunkSize - 1 + B ∧
  s.chunks.map ChunkInfo.Index = List.range' 1 s.chunks.length ∧
  s.currentChunk = s.chunks.length + 1 ∧
  s.currentFilename = chunkFileName s.currentChunk ∧
  (∀ c ∈ s.chunks, c.Filename = chunkFileName c.Index)

/-- Invariant of the data-candidate loop in `ExtractSchema`, for the
uniqueness statement: the relationship list and the `dataFKs` list are
duplicate-free on `(table, column)` pairs, mutually disjoint, and every
pair held in either list is registered in the `existingRelationships`
map. -/
def MergeInv (s : MergeState) : Prop :=
  (pairsOf s.rels).Nodup ∧ (pairsOf s.dataFKs).Nodup ∧
  (∀ p ∈ pairsOf s.rels, p ∉ pairsOf s.dataFKs) ∧
  (∀ p, p ∈ pairsOf s.rels ∨ p ∈ pairsOf s.dataFKs →
    (s.existing.lookup (relKey p.1 p.2)).isSome = true)

/-! ## Concrete fixtures used by counterexamples and witnesses -/

/-- Fixture: a `users` table with a single `id` column. -/
def usersTable : Table :=
  { Name := "users", Columns := [⟨"id", "int"⟩], PrimaryKeys := ["id"], RowCount := 1 }

/-- Fixture: a `posts` table with `id` and `user_id` columns. -/
def postsTable : Table :=
  { Name := "posts", Columns := [⟨"id", "int"⟩, ⟨"user_id", "int"⟩],
    PrimaryKeys := ["id"], RowCount := 1 }

/-- Fixture: schema with `users` and `posts` and no declared relationship. -/
def schemaUP : Schema :=
  { Database := "db", Tables := [("users", usersTable), ("posts", postsTable)],
    Relationships := [] }

/-- Fixture: a declared FK `posts.user_id → users.id`. -/
def declaredPU : ForeignKey :=
  { ConstraintName := "posts_ibfk_1", TableName := "posts", ColumnName := "user_id",
    RefTableName := "users", RefColumnName := "id", UpdateRule := "", DeleteRule := "" }

/-- Fixture: an `emp` table whose `boss` column matches no naming
convention. -/
def empTable : Table :=
  { Name := "emp", Columns := [⟨"id", "int"⟩, ⟨"boss", "int"⟩],
    PrimaryKeys := ["id"], RowCount := 1 }

/-- Fixture: a `people` table. -/
def peopleTable : Table :=
  { Name := "people", Columns := [⟨"id", "int"⟩], PrimaryKeys := ["id"], RowCount := 1 }

/-- Fixture: schema with `emp` and `people`. -/
def schemaEmp : Schema :=
  { Database := "db", Tables := [("emp", empTable), ("people", peopleTable)],
    Relationships := [] }

/-- Fixture: a declared FK `emp.boss → people.id`. -/
def declaredBoss : ForeignKey :=
  { ConstraintName := "emp_ibfk_1", TableName := "emp", ColumnName := "boss",
    RefTableName := "people", RefColumnName := "id", UpdateRule := "", DeleteRule := "" }

/-- Fixture: a data-sampled candidate `emp.boss → c.id` with observed match
ratio 0.9 (above the 0.8 override threshold). -/
def candBoss : Candidate :=
  { FromTable := "emp", FromColumn := "boss", ToTable := "c", ToColumn := "id",
    Confidence := ⟨9, 10, by norm_num, by norm_num⟩ }

/-- Fixture: the `authors` table of scenario S1. -/
def authorsTable : Table :=
  { Name := "authors", Columns := [⟨"id", "int"⟩, ⟨"name", "varchar"⟩],
    PrimaryKeys := ["id"], RowCount := 1 }

/-- Fixture: the `books` table of scenario S1. -/
def booksTable : Table :=
  { Name := "books", Columns := [⟨"id", "int"⟩, ⟨"title", "varchar"⟩, ⟨"author_id", "int"⟩],
    PrimaryKeys := ["id"], RowCount := 1 }

/-- Fixture: the declared FK `books.author_id → authors.id` of scenario S1. -/
def fkBooksAuthors : ForeignKey :=
  { ConstraintName := "books_ibfk_1", TableName := "books", ColumnName := "author_id",
    RefTableName := "authors", RefColumnName := "id", UpdateRule := "", DeleteRule := "" }

/-- Fixture: the resolved S1 schema. -/
def schemaS1 : Schema :=
  { Database := "db", Tables := [("authors", authorsTable), ("books", booksTable)],
    Relationships := [fkBooksAuthors] }

/-- Fixture: a table whose declared primary key `pk` is not named by any
`id` convention, while another column `other_id` is. -/
def tPkTable : Table :=
  { Name := "t", Columns := [⟨"pk", "int"⟩, ⟨"other_id", "int"⟩],
    PrimaryKeys := ["pk"], RowCount := 1 }

/-! ## Helper lemmas -/

theorem ratHalf_eq : ratHalf = 1 / 2 := by
  show (⟨1, 2, _, _⟩ : ℚ) = 1 / 2
  rw [Rat.mk'_eq_divInt, Rat.divInt_eq_div]; norm_num

theorem ratFourFifths_eq : ratFourFifths = 4 / 5 := by
  show (⟨4, 5, _, _⟩ : ℚ) = 4 / 5
  rw [Rat.mk'_eq_divInt, Rat.divInt_eq_div]; norm_num

theorem mapSet_lookup (m : List (String × String)) (k v k' : String) :
    (mapSet m k v).lookup k' = if k' = k then some v else m.lookup k' := by
  induction m with
  | nil =>
    by_cases h : k' = k <;>
      simp [mapSet, List.lookup, h, show (k' == k) = decide (k' = k) from rfl]
  | cons hd t ih =>
    obtain ⟨hk, hv⟩ := hd
    by_cases hkk : hk = k
    · subst hkk
      by_cases h2 : k' = hk <;>
        simp [mapSet, List.lookup, h2, show (k' == hk) = decide (k' = hk) from rfl]
    · have hne : (hk == k) = false := by simp [hkk]
      by_cases h2 : k' = hk
      · subst h2
        have hxx : ¬k' = k := hkk
        simp [mapSet, List.lookup, hne, hxx,
          show (k' == k') = true from by simp]
      · have e2 : (k' == hk) = false := by simp [h2]
        simp [mapSet, List.lookup, hne, e2, ih]

theorem replaceChar_append (pat : Char) (repl : List Char) (a b : List Char) :
    replaceChar pat repl (a ++ b) = replaceChar pat repl a ++ replaceChar pat repl b := by
  simp [replaceChar]

theorem escapeChars_step (l : List Char) :
    (escapeRDFValue ⟨l⟩).data =
      replaceChar '\t' ['\\', 't'] (replaceChar '\r' ['\\', 'r']
        (replaceChar '\n' ['\\', 'n'] (replaceChar '"' ['\\', '"']
          (replaceChar '\\' ['\\', '\\'] l)))) := rfl

/-! ## C1 -/

/-- C1: the claim states that a declared FK `A.x → B` survives every
data-sampled candidate `A.x → C`, even one with match ratio above 0.8.  In
the merge of `ExtractSchema` this fails: with declared `emp.boss → people`
and a sampled candidate `emp.boss → c` at ratio 0.9, the final relationship
list maps `(emp, boss)` to `c`; the declared entry is filtered out.  The
in-code comment says only convention-based entries should be overridden,
so this is evaluated as a defect of the merge. -/
theorem extractSchema_data_candidate_overrides_declared_fk :
    ratFourFifths < candBoss.Confidence ∧
    declaredBoss.RefTableName = "people" ∧
    resolveRelationships [declaredBoss] schemaEmp [candBoss] =
      [{ ConstraintName := "data_fk_emp_boss", TableName := "emp", ColumnName := "boss",
         RefTableName := "c", RefColumnName := "id",
         UpdateRule := "CASCADE", DeleteRule := "RESTRICT" }] := by
  refine ⟨by decide, by decide, by decide⟩

/-! ## C5 -/

/-- C5 counterexample: the claim states `MySQLToDgraphType "tinyint(1)" =
"bool"`; in the source the integer-family case is tested first and
`tinyint(1)` contains `int`, so the result is `int`. -/
theorem mySQLToDgraphType_tinyint1_maps_to_int :
    MySQLToDgraphType "tinyint(1)" = "int" ∧ MySQLToDgraphType "tinyint(1)" ≠ "bool" := by
  refine ⟨by decide, by decide⟩

/-- C5 amended: the integer-family check precedes the bool check, so every
type string containing `int` (including `tinyint(1)`) maps to `int`; the
bool case only catches type strings that avoid the integer and float
substrings. -/
theorem mySQLToDgraphType_int_family_takes_precedence (s : String)
    (h : goContains (goToLower s) "int" = true) :
    MySQLToDgraphType s = "int" := by
  unfold MySQLToDgraphType
  simp [h]

/-- Witness for the C5 amended theorem at `tinyint(1)`. -/
theorem mySQLToDgraphType_int_family_takes_precedence_witness :
    goContains (goToLower "tinyint(1)") "int" = true ∧
    MySQLToDgraphType "tinyint(1)" = "int" :=
  ⟨by decide, mySQLToDgraphType_int_family_takes_precedence "tinyint(1)" (by decide)⟩

/-! ## C8 -/

theorem escapeChars_single (c : Char) :
    replaceChar '\t' ['\\', 't'] (replaceChar '\r' ['\\', 'r']
      (replaceChar '\n' ['\\', 'n'] (replaceChar '"' ['\\', '"']
        (replaceChar '\\' ['\\', '\\'] [c])))) = rdfEscapeCharSpec c := by
  by_cases h1 : c = '\\'
  · subst h1; decide
  by_cases h2 : c = '"'
  · subst h2; decide
  by_cases h3 : c = '\n'
  · subst h3; decide
  by_cases h4 : c = '\r'
  · subst h4; decide
  by_cases h5 : c = '\t'
  · subst h5; decide
  simp [replaceChar, rdfEscapeCharSpec, h1, h2, h3, h4, h5]

theorem escapeChars_eq_flatMap (l : List Char) :
    replaceChar '\t' ['\\', 't'] (replaceChar '\r' ['\\', 'r']
      (replaceChar '\n' ['\\', 'n'] (replaceChar '"' ['\\', '"']
        (replaceChar '\\' ['\\', '\\'] l)))) = l.flatMap rdfEscapeCharSpec := by
  induction l with
  | nil => rfl
  | cons c rest ih =>
    have hcons : ∀ (pat : Char) (repl : List Char) (x : Char) (xs : List Char),
        replaceChar pat repl (x :: xs) =
          replaceChar pat repl [x] ++ replaceChar pat repl xs := by
      intro pat repl x xs
      simp [replaceChar]
    rw [hcons, replaceChar_append, replaceChar_append, replaceChar_append,
      replaceChar_append, escapeChars_single, ih, List.flatMap_cons]

/-- C8: `escapeRDFValue` escapes exactly backslash, double-quote, newline,
carriage return and tab, with the backslash pass first — its sequential
`strings.ReplaceAll` chain coincides with the per-character escape map —
and on the six-character input `a"b\nc` (literal backslash before `n`) the
emitted literal body is `a\"b\\nc`, as in scenario S5. -/
theorem escapeRDFValue_escapes_exactly_five_chars :
    (∀ s : String, (escapeRDFValue s).data = s.data.flatMap rdfEscapeCharSpec) ∧
    escapeRDFValue "a\"b\\nc" = "a\\\"b\\\\nc" := by
  constructor
  · intro s
    rw [show (escapeRDFValue s).data =
      replaceChar '\t' ['\\', 't'] (replaceChar '\r' ['\\', 'r']
        (replaceChar '\n' ['\\', 'n'] (replaceChar '"' ['\\', '"']
          (replaceChar '\\' ['\\', '\\'] s.data)))) from rfl]
    exact escapeChars_eq_flatMap s.data
  · decide

/-! ## C2 -/

/-- C2 counterexample: the claim states that every forward FK edge is
accompanied by both the `_reverse` triple and the semantic collection
triple `<object> <T.plural(table)> <subject>`.  On the S1 row of `books`,
the emitter produces the forward and `_reverse` triples but no semantic
collection triple (neither with the pipeline pluralizer `bookses` nor the
spec form `books`): the semantic predicate exists only in the generated
schema, not in the data. -/
theorem convertRowToRDF_no_semantic_collection_triple :
    (convertRowToRDF "books" ["id", "title", "author_id"] ["10", "T", "1"] schemaS1 []).1 =
      ["_:books_10 <dgraph.type> \"books\" .",
       "_:books_10 <books.id> \"10\" .",
       "_:books_10 <books.title> \"T\" .",
       "_:books_10 <books.author_id> _:authors_1 .",
       "_:authors_1 <books.author_id_reverse> _:books_10 ."] ∧
    "_:authors_1 <authors." ++ pluralize "books" ++ "> _:books_10 ." ∉
      (convertRowToRDF "books" ["id", "title", "author_id"] ["10", "T", "1"] schemaS1 []).1 ∧
    "_:authors_1 <authors.books> _:books_10 ." ∉
      (convertRowToRDF "books" ["id", "title", "author_id"] ["10", "T", "1"] schemaS1 []).1 := by
  refine ⟨by decide, by decide, by decide⟩

/-! ## C3 -/

/-- C3 counterexample: the claim states that the merged relationship list
has exactly one entry per `(from_table, from_column)` even when a declared
FK and a convention candidate both exist for the column.  With declared
`posts.user_id → users` in the `users`/`posts` schema,
`DetectForeignKeysByConvention` appends a second entry for the same column
without consulting the declared keys, so the final list holds the pair
`(posts, user_id)` twice. -/
theorem resolveRelationships_duplicate_entries_for_declared_and_convention :
    (resolveRelationships [declaredPU] schemaUP []).map fkPair =
      [("posts", "user_id"), ("posts", "user_id")] ∧
    ¬((resolveRelationships [declaredPU] schemaUP []).map fkPair).Nodup := by
  refine ⟨by decide, by decide⟩

/-! ## C4 -/

/-- C4 counterexample: the claim states the primary value is the first
primary-key column value, and that a row with empty primary value is
skipped entirely.  Both fail: `generateRowUID` never consults the declared
primary keys (on the `t` table with `PrimaryKeys = [pk]` it picks the
`other_id` value `7`, not the `pk` value `5`), and a row whose candidate
values are all empty is still emitted with the `dgraph.type` triple and the
degenerate label `_:t_`. -/
theorem generateRowUID_ignores_primary_keys_and_rows_not_skipped :
    tPkTable.PrimaryKeys = ["pk"] ∧
    generateRowUID "t" ["pk", "other_id"] ["5", "7"] = "_:t_7" ∧
    "_:t_7" ≠ "_:t_5" ∧
    (convertRowToRDF "t" ["id", "name"] ["", ""] schemaS1 []).1 =
      ["_:t_ <dgraph.type> \"t\" ."] ∧
    (convertRowToRDF "t" ["id", "name"] ["", ""] schemaS1 []).1 ≠ [] := by
  refine ⟨by decide, by decide, by decide, by decide, by decide⟩

/-! ## C6 -/

/-- C6 counterexample: the claim states every blank-node label contains
only letters, digits and underscore after the `_:` marker.  Values are
interpolated without sanitization: the foreign-key value `a-b` yields the
label `_:t_a-b`, whose body contains `-`. -/
theorem getOrCreateUID_label_with_nonword_chars :
    (getOrCreateUID [] "t" "a-b").1 = "_:t_a-b" ∧
    goStartsWith (getOrCreateUID [] "t" "a-b").1 "_:" = true ∧
    ((getOrCreateUID [] "t" "a-b").1.data.drop 2).all isWordChar = false := by
  refine ⟨by decide, by decide, by decide⟩

/-! ## C7 -/

/-- C7 counterexample: the claim states that no closed chunk contains more
records than the threshold.  The roll check runs only at batch boundaries:
with threshold 3 and three batches of 2 records, the first closed chunk
holds 4 records. -/
theorem exportInChunks_closed_chunk_exceeds_threshold :
    ExportInChunks 3 [[2, 2, 2]] =
      [{ Index := 1, Filename := "data_chunk_1.rdf", Records := 4 },
       { Index := 2, Filename := "data_chunk_2.rdf", Records := 2 }] ∧
    ∃ c ∈ ExportInChunks 3 [[2, 2, 2]], 3 < c.Records := by
  refine ⟨by decide, ⟨{ Index := 1, Filename := "data_chunk_1.rdf", Records := 4 },
    by decide, by decide⟩⟩

theorem pmapSet_lookup (m : List (String × PredicateInfo)) (k : String)
    (v : PredicateInfo) (k' : String) :
    (pmapSet m k v).lookup k' = if k' = k then some v else m.lookup k' := by
  induction m with
  | nil =>
    by_cases h : k' = k <;>
      simp [pmapSet, List.lookup, h, show (k' == k) = decide (k' = k) from rfl]
  | cons hd t ih =>
    obtain ⟨hk, hv⟩ := hd
    by_cases hkk : hk = k
    · subst hkk
      by_cases h2 : k' = hk <;>
        simp [pmapSet, List.lookup, h2, show (k' == hk) = decide (k' = hk) from rfl]
    · have hne : (hk == k) = false := by simp [hkk]
      by_cases h2 : k' = hk
      · subst h2
        have hxx : ¬k' = k := hkk
        simp [pmapSet, List.lookup, hne, hxx,
          show (k' == k') = true from by simp]
      · have e2 : (k' == hk) = false := by simp [h2]
        simp [pmapSet, List.lookup, hne, e2, ih]

theorem pmapSet_lookup_isSome (m : List (String × PredicateInfo)) (k : String)
    (v : PredicateInfo) (k' : String)
    (h : ((m.lookup k').isSome) = true) :
    (((pmapSet m k v).lookup k').isSome) = true := by
  rw [pmapSet_lookup]
  by_cases h2 : k' = k <;> simp [h2, h]

theorem relPredStep_mono (m : List (String × PredicateInfo)) (fk : ForeignKey)
    (k : String) (h : ((m.lookup k).isSome) = true) :
    (((relPredStep m fk).lookup k).isSome) = true := by
  unfold relPredStep
  cases hfind : m.lookup (fk.TableName ++ "." ++ fk.ColumnName) with
  | none =>
    dsimp only
    rw [hfind]
    split
    · exact pmapSet_lookup_isSome _ _ _ _ (pmapSet_lookup_isSome _ _ _ _ h)
    · exact pmapSet_lookup_isSome _ _ _ _
        (pmapSet_lookup_isSome _ _ _ _ (pmapSet_lookup_isSome _ _ _ _ h))
  | some pred =>
    dsimp only
    rw [hfind]
    split
    · exact pmapSet_lookup_isSome _ _ _ _ (pmapSet_lookup_isSome _ _ _ _ h)
    · exact pmapSet_lookup_isSome _ _ _ _
        (pmapSet_lookup_isSome _ _ _ _ (pmapSet_lookup_isSome _ _ _ _ h))

theorem relPredStep_sem (m : List (String × PredicateInfo)) (fk : ForeignKey) :
    (((relPredStep m fk).lookup
      (fk.RefTableName ++ "." ++ pluralize fk.TableName)).isSome) = true := by
  unfold relPredStep
  cases hfind : m.lookup (fk.TableName ++ "." ++ fk.ColumnName) with
  | none =>
    dsimp only
    rw [hfind]
    split
    · assumption
    · rw [pmapSet_lookup]; simp
  | some pred =>
    dsimp only
    rw [hfind]
    split
    · assumption
    · rw [pmapSet_lookup]; simp

theorem foldl_relPredStep_mono (rels : List ForeignKey)
    (m : List (String × PredicateInfo)) (k : String)
    (h : ((m.lookup k).isSome) = true) :
    (((rels.foldl relPredStep m).lookup k).isSome) = true := by
  induction rels generalizing m with
  | nil => exact h
  | cons a l ih => exact ih _ (relPredStep_mono m a k h)

theorem foldl_relPredStep_sem_of_mem (rels : List ForeignKey) (fk : ForeignKey)
    (h : fk ∈ rels) :
    ∀ m0 : List (String × PredicateInfo),
    (((rels.foldl relPredStep m0).lookup
      (fk.RefTableName ++ "." ++ pluralize fk.TableName)).isSome) = true := by
  induction rels with
  | nil => cases h
  | cons a l ih =>
    intro m0
    rcases List.mem_cons.mp h with h1 | h1
    · subst h1
      exact foldl_relPredStep_mono l _ _ (relPredStep_sem m0 fk)
    · exact ih h1 (relPredStep m0 a)

theorem emissionShape_convertColumns (t u : String) (schema : Schema)
    (pairs : List (String × String)) :
    ∀ m, EmissionShape (convertColumns t u schema pairs m).1 := by
  induction pairs with
  | nil => intro m; exact EmissionShape.nil
  | cons cv rest ih =>
    intro m
    by_cases hskip : (cv.2 == "" || goToLower cv.2 == "null") = true
    · simpa [convertColumns, hskip] using ih m
    · have hskip' : (cv.2 == "" || goToLower cv.2 == "null") = false := by
        simpa using hskip
      cases hfk : isForeignKey t cv.1 schema with
      | mk b r =>
        cases b
        · simp only [convertColumns, hskip', Bool.false_eq_true, if_false, hfk]
          exact EmissionShape.lit u (t ++ "." ++ cv.1) (escapeRDFValue cv.2) _ (ih _)
        · simp only [convertColumns, hskip', Bool.false_eq_true, if_false, hfk]
          exact EmissionShape.edge u (t ++ "." ++ cv.1)
            (getOrCreateUID m r cv.2).1 _ (ih _)

/-- C2 amended: per foreign-key column the emitter produces exactly the
forward edge immediately followed by its `_reverse` companion (one of
each), and nothing else — in particular no semantic collection triple is
emitted with the data; the semantic `<target>.<plural(table)>` predicate is
only declared by the schema generator, which registers it for every
resolved relationship. -/
theorem convertRowToRDF_reverse_paired_semantic_only_in_schema :
    (∀ (t : String) (cols vals : List String) (schema : Schema)
      (m : List (String × String)),
      ∃ rest, (convertRowToRDF t cols vals schema m).1 =
        (generateRowUID t cols vals ++ " <dgraph.type> \"" ++ t ++ "\" .") :: rest ∧
        EmissionShape rest) ∧
    (∀ (schema : Schema) (fk : ForeignKey), fk ∈ schema.Relationships →
      (((generatePredicates schema).lookup
        (fk.RefTableName ++ "." ++ pluralize fk.TableName)).isSome) = true) := by
  constructor
  · intro t cols vals schema m
    exact ⟨(convertColumns t (generateRowUID t cols vals) schema (cols.zip vals) m).1,
      rfl, emissionShape_convertColumns _ _ _ _ m⟩
  · intro schema fk hmem
    unfold generatePredicates
    exact foldl_relPredStep_sem_of_mem schema.Relationships fk hmem
      (columnPredicates schema)

/-- Witness for the C2 amended theorem: the S1 relationship
`books.author_id → authors` yields the semantic predicate
`authors.bookses` in the generated schema. -/
theorem convertRowToRDF_reverse_paired_semantic_only_in_schema_witness :
    fkBooksAuthors ∈ schemaS1.Relationships ∧
    (((generatePredicates schemaS1).lookup
      (fkBooksAuthors.RefTableName ++ "." ++ pluralize fkBooksAuthors.TableName)).isSome) =
      true :=
  ⟨by decide,
   convertRowToRDF_reverse_paired_semantic_only_in_schema.2 schemaS1 fkBooksAuthors
     (by decide)⟩

theorem goStartsWith_append (a b : String) : goStartsWith (a ++ b) a = true := by
  rw [goStartsWith, String.data_append]
  exact List.isPrefixOf_iff_prefix.mpr (List.prefix_append a.data b.data)

theorem generateRowUID_shape (t : String) (cols vals : List String) :
    ∃ pk, generateRowUID t cols vals = ("_:" ++ t ++ "_") ++ pk ∧
      (pk = "" ∨ pk ∈ vals) := by
  unfold generateRowUID
  cases hf : (cols.zip vals).find? (fun cv =>
      goToLower cv.1 == "id" || goEndsWith (goToLower cv.1) "_id") with
  | none =>
    cases vals with
    | nil => exact ⟨"", rfl, Or.inl rfl⟩
    | cons w ws =>
      refine ⟨w, ?_, Or.inr (List.mem_cons_self w ws)⟩
      simp [List.headD]
  | some cv =>
    have hmem : cv ∈ cols.zip vals := List.mem_of_find?_eq_some hf
    have hv : cv.2 ∈ vals := (List.of_mem_zip hmem).2
    by_cases he : cv.2 = ""
    · cases vals with
      | nil => cases hv
      | cons w ws =>
        refine ⟨w, ?_, Or.inr (List.mem_cons_self w ws)⟩
        simp [he, List.headD]
    · refine ⟨cv.2, ?_, Or.inr hv⟩
      have : (cv.2 == "") = false := by simp [he]
      simp [this]

/-- C4 amended: the emitter never skips a row — for every input the first
emitted line is the `dgraph.type` triple with the `generateRowUID` label —
and the label is always `_:<table>_<primary value>` where the primary value
is taken from the id-named-column rule (or is empty), not from the declared
primary keys, which `generateRowUID` cannot even see. -/
theorem convertRowToRDF_always_emits_type_triple :
    (∀ (t : String) (cols vals : List String) (schema : Schema)
      (m : List (String × String)),
      (convertRowToRDF t cols vals schema m).1.head? =
        some (generateRowUID t cols vals ++ " <dgraph.type> \"" ++ t ++ "\" .")) ∧
    (∀ (t : String) (cols vals : List String),
      goStartsWith (generateRowUID t cols vals) ("_:" ++ t ++ "_") = true ∧
      (∃ pk, generateRowUID t cols vals = ("_:" ++ t ++ "_") ++ pk ∧
        (pk = "" ∨ pk ∈ vals))) := by
  constructor
  · intro t cols vals schema m
    rfl
  · intro t cols vals
    obtain ⟨pk, hpk, hmem⟩ := generateRowUID_shape t cols vals
    refine ⟨?_, pk, hpk, hmem⟩
    rw [hpk]
    exact goStartsWith_append _ _

theorem wordChar_append_all (t v : String)
    (ht : t.data.all isWordChar = true) (hv : v.data.all isWordChar = true) :
    ((("_:" ++ t ++ "_") ++ v).data.drop 2).all isWordChar = true := by
  have : (("_:" ++ t ++ "_") ++ v).data = '_' :: ':' :: (t.data ++ ['_'] ++ v.data) := by
    simp [String.data_append]
  rw [this]
  simp only [List.drop_succ_cons, List.drop_zero, List.all_append]
  simp [ht, hv, isWordChar]

/-- C6 amended: every label minted by `generateRowUID` or `getOrCreateUID`
begins with `_:` and is the verbatim interpolation `_:<table>_<value>`; the
body after `_:` is confined to letters, digits and underscore exactly when
the table name and the interpolated value are — no sanitization is
applied. -/
theorem uid_labels_blank_marker_and_conditional_charset :
    (∀ (t : String) (cols vals : List String),
      goStartsWith (generateRowUID t cols vals) "_:" = true) ∧
    (∀ (t v : String) (m : List (String × String)),
      m.lookup (t ++ ":" ++ v) = none →
      (getOrCreateUID m t v).1 = ("_:" ++ t ++ "_") ++ v) ∧
    (∀ (t v : String), t.data.all isWordChar = true → v.data.all isWordChar = true →
      ((("_:" ++ t ++ "_") ++ v).data.drop 2).all isWordChar = true) ∧
    (∀ (t : String) (cols vals : List String),
      t.data.all isWordChar = true → (∀ w ∈ vals, w.data.all isWordChar = true) →
      ((generateRowUID t cols vals).data.drop 2).all isWordChar = true) := by
  refine ⟨?_, ?_, ?_, ?_⟩
  · intro t cols vals
    obtain ⟨pk, hpk, _⟩ := generateRowUID_shape t cols vals
    rw [hpk, show ("_:" ++ t ++ "_") ++ pk = "_:" ++ (t ++ "_" ++ pk) by
      simp [String.append_assoc]]
    exact goStartsWith_append _ _
  · intro t v m hm
    simp only [getOrCreateUID, hm]
  · exact wordChar_append_all
  · intro t cols vals ht hv
    obtain ⟨pk, hpk, hmem⟩ := generateRowUID_shape t cols vals
    rw [hpk]
    apply wordChar_append_all t pk ht
    rcases hmem with h | h
    · subst h; rfl
    · exact hv pk h

/-- Witness for the C6 amended theorem at table `users` and value `1`. -/
theorem uid_labels_blank_marker_and_conditional_charset_witness :
    (([] : List (String × String)).lookup ("users" ++ ":" ++ "1") = none) ∧
    "users".data.all isWordChar = true ∧
    "1".data.all isWordChar = true ∧
    (getOrCreateUID [] "users" "1").1 = ("_:" ++ "users" ++ "_") ++ "1" ∧
    ((("_:" ++ "users" ++ "_") ++ "1").data.drop 2).all isWordChar = true :=
  ⟨rfl, by decide, by decide,
   uid_labels_blank_marker_and_conditional_charset.2.1 "users" "1" [] rfl,
   uid_labels_blank_marker_and_conditional_charset.2.2.1 "users" "1"
     (by decide) (by decide)⟩

theorem generateRowUID_single (t c v : String) (hv : v ≠ "") :
    generateRowUID t [c] [v] = "_:" ++ t ++ "_" ++ v := by
  unfold generateRowUID
  have hvb : (v == "") = false := by simp [hv]
  cases hcond : (goToLower c == "id" || goEndsWith (goToLower c) "_id") with
  | true => simp [List.zip, List.zipWith, List.find?, hcond, hvb]
  | false => simp [List.zip, List.zipWith, List.find?, hcond, List.headD]

/-- C9: a column with no entry in the resolved relationship list is still
emitted as a foreign key when its name matches the convention and one of
the fallback candidate tables exists: the emitter classifies it through
`isForeignKey`, emits the uid edge plus the `_reverse` triple to the
candidate table, and no literal triple — emitted edges are not confined to
the resolved relationship set. -/
theorem convertRowToRDF_emits_convention_fallback_edges
    (t c v T : String) (schema : Schema) (m : List (String × String))
    (hrel : schema.Relationships.filter (fun fk =>
      fk.TableName == t && fk.ColumnName == c) = [])
    (hconv : IsForeignKey c = true)
    (hcand : (fkFallbackCandidates t c).find?
      (fun cand => (lookupTable schema cand).isSome) = some T)
    (hv : v ≠ "") (hnull : goToLower v ≠ "null")
    (hm : m.lookup (T ++ ":" ++ v) = none) :
    isForeignKey t c schema = (true, T) ∧
    (convertRowToRDF t [c] [v] schema m).1 =
      ["_:" ++ t ++ "_" ++ v ++ " <dgraph.type> \"" ++ t ++ "\" .",
       ("_:" ++ t ++ "_" ++ v) ++ " <" ++ (t ++ "." ++ c) ++ "> " ++
         ("_:" ++ T ++ "_" ++ v) ++ " .",
       ("_:" ++ T ++ "_" ++ v) ++ " <" ++ (t ++ "." ++ c) ++ "_reverse> " ++
         ("_:" ++ t ++ "_" ++ v) ++ " ."] := by
  have hfk : isForeignKey t c schema = (true, T) := by
    unfold isForeignKey
    dsimp only
    rw [hrel]
    simp only [List.map_nil, hconv, if_true, hcand]
  refine ⟨hfk, ?_⟩
  have hskip : (v == "" || goToLower v == "null") = false := by
    simp [hv, hnull]
  have hzip : [c].zip [v] = [(c, v)] := rfl
  unfold convertRowToRDF
  rw [generateRowUID_single t c v hv, hzip]
  simp only [convertColumns, hskip, Bool.false_eq_true, if_false, hfk,
    getOrCreateUID, hm]

/-- Witness for the C9 theorem: in the `users`/`posts` schema with no
relationships, the `posts.user_id` column with value `7` is emitted as an
edge to the convention-matched `users` table. -/
theorem convertRowToRDF_emits_convention_fallback_edges_witness :
    schemaUP.Relationships.filter (fun fk =>
      fk.TableName == "posts" && fk.ColumnName == "user_id") = [] ∧
    IsForeignKey "user_id" = true ∧
    (fkFallbackCandidates "posts" "user_id").find?
      (fun cand => (lookupTable schemaUP cand).isSome) = some "users" ∧
    isForeignKey "posts" "user_id" schemaUP = (true, "users") :=
  ⟨by decide, by decide, by decide,
   (convertRowToRDF_emits_convention_fallback_edges "posts" "user_id" "7" "users"
     schemaUP [] (by decide) (by decide) (by decide) (by decide) (by decide) rfl).1⟩

theorem getOrCreateUID_snd_lookup (m : List (String × String)) (t v k : String) :
    ((((getOrCreateUID m t v).2).lookup k).isSome = true) ↔
      ((m.lookup k).isSome = true ∨ k = t ++ ":" ++ v) := by
  unfold getOrCreateUID
  cases hl : m.lookup (t ++ ":" ++ v) with
  | some uid =>
    dsimp only
    rw [hl]
    dsimp only
    constructor
    · exact fun h => Or.inl h
    · rintro (h | h)
      · exact h
      · rw [h, hl]; rfl
  | none =>
    dsimp only
    rw [hl]
    dsimp only
    rw [mapSet_lookup]
    by_cases hk : k = t ++ ":" ++ v <;> simp [hk]

theorem convertColumns_snd_lookup (t u : String) (schema : Schema)
    (pairs : List (String × String)) :
    ∀ (m : List (String × String)) (k : String),
    ((((convertColumns t u schema pairs m).2).lookup k).isSome = true) ↔
      ((m.lookup k).isSome = true ∨
        ∃ cv ∈ pairs, columnFKKey t schema cv = some k) := by
  induction pairs with
  | nil => intro m k; simp [convertColumns]
  | cons cv rest ih =>
    intro m k
    by_cases hskip : (cv.2 == "" || goToLower cv.2 == "null") = true
    · simp only [convertColumns, hskip, if_true]
      rw [ih m k]
      have hnone : columnFKKey t schema cv = none := by
        simp [columnFKKey, hskip]
      simp [hnone]
    · have hskip' : (cv.2 == "" || goToLower cv.2 == "null") = false := by
        simpa using hskip
      cases hfk : isForeignKey t cv.1 schema with
      | mk b r =>
        cases b
        · simp only [convertColumns, hskip', Bool.false_eq_true, if_false, hfk]
          rw [ih m k]
          have hnone : columnFKKey t schema cv = none := by
            simp [columnFKKey, hskip', hfk]
          simp [hnone]
        · simp only [convertColumns, hskip', Bool.false_eq_true, if_false, hfk]
          rw [ih _ k, getOrCreateUID_snd_lookup]
          have hsome : columnFKKey t schema cv = some (r ++ ":" ++ cv.2) := by
            simp [columnFKKey, hskip', hfk]
          simp [hsome]
          constructor
          · rintro ((h | h) | h)
            · exact Or.inl h
            · exact Or.inr (Or.inl h.symm)
            · exact Or.inr (Or.inr h)
          · rintro (h | h | h)
            · exact Or.inl (Or.inl h)
            · exact Or.inl (Or.inr h.symm)
            · exact Or.inr h

theorem processRows_lookup (schema : Schema) (rows : List Row) :
    ∀ (m : List (String × String)) (k : String),
    (((processRows schema rows m).lookup k).isSome = true) ↔
      ((m.lookup k).isSome = true ∨ ∃ r ∈ rows, k ∈ rowFKKeys schema r) := by
  induction rows with
  | nil => intro m k; simp [processRows]
  | cons r rest ih =>
    intro m k
    have hstep : processRows schema (r :: rest) m =
        processRows schema rest ((convertRowToRDF r.table r.cols r.values schema m).2) := rfl
    rw [hstep, ih]
    have hrow : (((convertRowToRDF r.table r.cols r.values schema m).2).lookup k).isSome =
        true ↔ ((m.lookup k).isSome = true ∨
          ∃ cv ∈ r.cols.zip r.values, columnFKKey r.table schema cv = some k) := by
      unfold convertRowToRDF
      exact convertColumns_snd_lookup _ _ _ _ m k
    rw [hrow]
    have hkeys : (∃ cv ∈ r.cols.zip r.values, columnFKKey r.table schema cv = some k) ↔
        k ∈ rowFKKeys schema r := by
      simp [rowFKKeys, List.mem_filterMap]
    rw [hkeys]
    constructor
    · rintro ((h | h) | h)
      · exact Or.inl h
      · exact Or.inr ⟨r, List.mem_cons_self r rest, h⟩
      · obtain ⟨r2, hr2, hk2⟩ := h
        exact Or.inr ⟨r2, List.mem_cons_of_mem r hr2, hk2⟩
    · rintro (h | ⟨r2, hr2, hk2⟩)
      · exact Or.inl (Or.inl h)
      · rcases List.mem_cons.mp hr2 with h3 | h3
        · subst h3; exact Or.inl (Or.inr hk2)
        · exact Or.inr ⟨r2, h3, hk2⟩

/-- C10: converting rows changes the shared UID map only through
`getOrCreateUID` on foreign-key object values: after one row the map holds
exactly its previous keys plus the `<ref_table>:<value>` keys of the row's
emitted FK columns, and a run over any row list starting from the empty map
persists exactly the keys that occurred as FK reference targets — row
subjects are never inserted by `generateRowUID`. -/
theorem uidMap_gains_exactly_fk_reference_keys :
    (∀ (t : String) (cols vals : List String) (schema : Schema)
      (m : List (String × String)) (k : String),
      ((((convertRowToRDF t cols vals schema m).2).lookup k).isSome = true) ↔
        ((m.lookup k).isSome = true ∨
          ∃ cv ∈ cols.zip vals, columnFKKey t schema cv = some k)) ∧
    (∀ (schema : Schema) (rows : List Row) (k : String),
      (((processRows schema rows []).lookup k).isSome = true) ↔
        ∃ r ∈ rows, k ∈ rowFKKeys schema r) := by
  constructor
  · intro t cols vals schema m k
    unfold convertRowToRDF
    exact convertColumns_snd_lookup _ _ _ _ m k
  · intro schema rows k
    rw [processRows_lookup]
    simp [List.lookup]

theorem rollIfFull_inv (chunkSize B : Nat) (s : ExportState) (h1 : 1 ≤ chunkSize)
    (hInv : ExportInv chunkSize B s) :
    ExportInv chunkSize B (rollIfFull chunkSize s) ∧
    (rollIfFull chunkSize s).chunkRecords < chunkSize := by
  obtain ⟨hb, hcr, hidx, hcur, hfn, hfns⟩ := hInv
  unfold rollIfFull
  by_cases hc : chunkSize ≤ s.chunkRecords
  · simp only [hc, if_true]
    refine ⟨⟨?_, Nat.zero_le _, ?_, ?_, ?_, ?_⟩, h1⟩
    · intro c hmem
      rcases List.mem_append.mp hmem with h | h
      · exact hb c h
      · rcases List.mem_singleton.mp h with rfl
        exact hcr
    · rw [List.map_append, hidx, List.length_append]
      simp only [List.map_cons, List.map_nil, List.length_cons, List.length_nil]
      rw [hcur]
      have : List.range' 1 (s.chunks.length + 1) =
          List.range' 1 s.chunks.length ++ [1 + 1 * s.chunks.length] :=
        List.range'_concat 1 s.chunks.length
      rw [this]
      simp [Nat.add_comm]
    · simp [hcur, List.length_append]
    · rfl
    · intro c hmem
      rcases List.mem_append.mp hmem with h | h
      · exact hfns c h
      · rcases List.mem_singleton.mp h with rfl
        exact hfn
  · simp only [hc, if_false]
    exact ⟨⟨hb, hcr, hidx, hcur, hfn, hfns⟩, Nat.lt_of_not_le hc⟩

theorem stepBatch_inv (chunkSize B : Nat) (s : ExportState) (b : Nat)
    (h1 : 1 ≤ chunkSize) (hbB : b ≤ B) (hInv : ExportInv chunkSize B s) :
    ExportInv chunkSize B (stepBatch chunkSize s b) := by
  obtain ⟨hInv2, hlt⟩ := rollIfFull_inv chunkSize B s h1 hInv
  obtain ⟨hb2, _, hidx2, hcur2, hfn2, hfns2⟩ := hInv2
  refine ⟨hb2, ?_, hidx2, hcur2, hfn2, hfns2⟩
  have : (rollIfFull chunkSize s).chunkRecords ≤ chunkSize - 1 := by omega
  show (rollIfFull chunkSize s).chunkRecords + b ≤ chunkSize - 1 + B
  omega

theorem foldl_stepBatch_inv (chunkSize B : Nat) (h1 : 1 ≤ chunkSize) :
    ∀ (batches : List Nat) (s : ExportState),
    (∀ b ∈ batches, b ≤ B) → ExportInv chunkSize B s →
    ExportInv chunkSize B (batches.foldl (stepBatch chunkSize) s) := by
  intro batches
  induction batches with
  | nil => intro s _ hInv; exact hInv
  | cons b rest ih =>
    intro s hball hInv
    exact ih _ (fun x hx => hball x (List.mem_cons_of_mem b hx))
      (stepBatch_inv chunkSize B s b h1 (hball b (List.mem_cons_self b rest)) hInv)

theorem foldl_tables_inv (chunkSize B : Nat) (h1 : 1 ≤ chunkSize) :
    ∀ (tables : List (List Nat)) (s : ExportState),
    (∀ t ∈ tables, ∀ b ∈ t, b ≤ B) → ExportInv chunkSize B s →
    ExportInv chunkSize B
      (tables.foldl (fun s batches => batches.foldl (stepBatch chunkSize) s) s) := by
  intro tables
  induction tables with
  | nil => intro s _ hInv; exact hInv
  | cons t rest ih =>
    intro s hall hInv
    exact ih _ (fun x hx => hall x (List.mem_cons_of_mem t hx))
      (foldl_stepBatch_inv chunkSize B h1 t s (hall t (List.mem_cons_self t rest)) hInv)

/-- C7 amended: the roll check of `ExportInChunks` runs only at batch
boundaries, so a closed chunk can exceed the threshold by up to one batch:
with every per-batch appended count at most `B`, every chunk in the
manifest holds at most `threshold - 1 + B` records; chunk indexes run
consecutively from 1 and each chunk's file is `data_chunk_<index>.rdf`. -/
theorem exportInChunks_record_bound_and_sequential_chunks
    (chunkSize B : Nat) (tables : List (List Nat))
    (h1 : 1 ≤ chunkSize) (hB : ∀ t ∈ tables, ∀ b ∈ t, b ≤ B) :
    (∀ c ∈ ExportInChunks chunkSize tables, c.Records ≤ chunkSize - 1 + B) ∧
    (ExportInChunks chunkSize tables).map ChunkInfo.Index =
      List.range' 1 (ExportInChunks chunkSize tables).length ∧
    (∀ c ∈ ExportInChunks chunkSize tables, c.Filename = chunkFileName c.Index) := by
  have hInv0 : ExportInv chunkSize B initExportState := by
    refine ⟨?_, Nat.zero_le _, rfl, rfl, rfl, ?_⟩ <;> simp [initExportState]
  have hInv := foldl_tables_inv chunkSize B h1 tables initExportState hB hInv0
  obtain ⟨hb, hcr, hidx, hcur, hfn, hfns⟩ := hInv
  have hres : ExportInChunks chunkSize tables =
      (if 0 < (tables.foldl (fun s batches => batches.foldl (stepBatch chunkSize) s)
          initExportState).chunkRecords then
        (tables.foldl (fun s batches => batches.foldl (stepBatch chunkSize) s)
          initExportState).chunks ++
          [{ Index := (tables.foldl (fun s batches => batches.foldl (stepBatch chunkSize) s)
              initExportState).currentChunk,
             Filename := (tables.foldl (fun s batches => batches.foldl (stepBatch chunkSize) s)
              initExportState).currentFilename,
             Records := (tables.foldl (fun s batches => batches.foldl (stepBatch chunkSize) s)
              initExportState).chunkRecords }]
      else (tables.foldl (fun s batches => batches.foldl (stepBatch chunkSize) s)
          initExportState).chunks) := rfl
  rw [hres]
  by_cases h0 : 0 < (tables.foldl (fun s batches => batches.foldl (stepBatch chunkSize) s)
      initExportState).chunkRecords
  · simp only [h0, if_true]
    refine ⟨?_, ?_, ?_⟩
    · intro c hmem
      rcases List.mem_append.mp hmem with h | h
      · exact hb c h
      · rcases List.mem_singleton.mp h with rfl
        exact hcr
    · rw [List.map_append, hidx, List.length_append]
      simp only [List.map_cons, List.map_nil, List.length_cons, List.length_nil]
      rw [hcur]
      have : List.range' 1
          ((tables.foldl (fun s batches => batches.foldl (stepBatch chunkSize) s)
            initExportState).chunks.length + 1) =
          List.range' 1
            ((tables.foldl (fun s batches => batches.foldl (stepBatch chunkSize) s)
              initExportState).chunks.length) ++
          [1 + 1 * (tables.foldl (fun s batches => batches.foldl (stepBatch chunkSize) s)
              initExportState).chunks.length] :=
        List.range'_concat 1
          ((tables.foldl (fun s batches => batches.foldl (stepBatch chunkSize) s)
            initExportState).chunks.length)
      rw [this]
      simp [Nat.add_comm]
    · intro c hmem
      rcases List.mem_append.mp hmem with h | h
      · exact hfns c h
      · rcases List.mem_singleton.mp h with rfl
        exact hfn
  · simp only [h0, if_false]
    exact ⟨hb, hidx, hfns⟩

/-- Witness for the C7 amended theorem at threshold 3, batch bound 2 and
batches 2, 2, 2: the oversized first chunk holds 4 ≤ 3 - 1 + 2 records. -/
theorem exportInChunks_record_bound_and_sequential_chunks_witness :
    (1 ≤ 3 ∧ ∀ t ∈ [[2, 2, 2]], ∀ b ∈ t, b ≤ 2) ∧
    (∀ c ∈ ExportInChunks 3 [[2, 2, 2]], c.Records ≤ 3 - 1 + 2) :=
  ⟨⟨by decide, by decide⟩,
   (exportInChunks_record_bound_and_sequential_chunks 3 2 [[2, 2, 2]]
     (by decide) (by decide)).1⟩

theorem pairsOf_append (a b : List ForeignKey) :
    pairsOf (a ++ b) = pairsOf a ++ pairsOf b := by
  simp [pairsOf]

theorem pairsOf_concat_cand (l : List ForeignKey) (cand : Candidate) :
    pairsOf (l ++ [candidateFK cand]) = pairsOf l ++ [candPair cand] := by
  rw [pairsOf_append]; rfl

theorem nodup_concat_cand (l : List ForeignKey) (cand : Candidate)
    (hn : (pairsOf l).Nodup) (hni : candPair cand ∉ pairsOf l) :
    (pairsOf (l ++ [candidateFK cand])).Nodup := by
  rw [pairsOf_concat_cand]
  refine hn.append (List.nodup_singleton _) ?_
  intro a ha hb
  rcases List.mem_singleton.mp hb with rfl
  exact hni ha

theorem lookup_foldl_mapSet (l : List ForeignKey) :
    ∀ (m0 : List (String × String)) (k : String),
    (((l.foldl (fun m fk =>
        mapSet m (relKey fk.TableName fk.ColumnName) fk.RefTableName) m0).lookup k).isSome
      = true) ↔
      ((m0.lookup k).isSome = true ∨
        ∃ fk ∈ l, relKey fk.TableName fk.ColumnName = k) := by
  induction l with
  | nil => intro m0 k; simp
  | cons fk rest ih =>
    intro m0 k
    rw [List.foldl_cons, ih, mapSet_lookup]
    constructor
    · rintro (h | h)
      · by_cases hk : k = relKey fk.TableName fk.ColumnName
        · exact Or.inr ⟨fk, List.mem_cons_self fk rest, hk.symm⟩
        · rw [if_neg hk] at h
          exact Or.inl h
      · obtain ⟨fk2, hfk2, hkey⟩ := h
        exact Or.inr ⟨fk2, List.mem_cons_of_mem fk hfk2, hkey⟩
    · rintro (h | ⟨fk2, hfk2, hkey⟩)
      · by_cases hk : k = relKey fk.TableName fk.ColumnName
        · rw [if_pos hk]; exact Or.inl rfl
        · rw [if_neg hk]; exact Or.inl h
      · rcases List.mem_cons.mp hfk2 with h2 | h2
        · subst h2
          rw [if_pos hkey.symm]
          exact Or.inl rfl
        · exact Or.inr ⟨fk2, h2, hkey⟩

theorem mergeStep_inv (s : MergeState) (cand : Candidate)
    (hInv : MergeInv s) (hcp : candPair cand ∉ pairsOf s.dataFKs) :
    MergeInv (mergeStep s cand) ∧
    ∀ p ∈ pairsOf (mergeStep s cand).dataFKs,
      p ∈ pairsOf s.dataFKs ∨ p = candPair cand := by
  obtain ⟨hn1, hn2, hdisj, hreg⟩ := hInv
  unfold mergeStep
  dsimp only
  by_cases hconf : ratHalf < cand.Confidence
  case neg =>
    simp only [if_neg hconf]
    exact ⟨⟨hn1, hn2, hdisj, hreg⟩, fun p hp => Or.inl hp⟩
  case pos =>
    simp only [if_pos hconf]
    cases hl : s.existing.lookup (relKey cand.FromTable cand.FromColumn) with
    | none =>
      dsimp only
      constructor
      · refine ⟨hn1, nodup_concat_cand _ _ hn2 hcp, ?_, ?_⟩
        · intro p hp
          rw [pairsOf_concat_cand]
          intro hp2
          rcases List.mem_append.mp hp2 with h | h
          · exact hdisj p hp h
          · have hpe := List.mem_singleton.mp h
            have hsome := hreg p (Or.inl hp)
            rw [hpe] at hsome
            simp only [candPair] at hsome
            rw [hl] at hsome
            cases hsome
        · intro p hpp
          rw [mapSet_lookup]
          by_cases hpk : relKey p.1 p.2 = relKey cand.FromTable cand.FromColumn
          · simp [hpk]
          · rw [if_neg hpk]
            rcases hpp with hp | hp
            · exact hreg p (Or.inl hp)
            · rw [pairsOf_concat_cand] at hp
              rcases List.mem_append.mp hp with h | h
              · exact hreg p (Or.inr h)
              · rcases List.mem_singleton.mp h with rfl
                exact absurd rfl hpk
      · intro p hp
        rw [pairsOf_concat_cand] at hp
        rcases List.mem_append.mp hp with h | h
        · exact Or.inl h
        · exact Or.inr (List.mem_singleton.mp h)
    | some existingRef =>
      dsimp only
      by_cases hconf2 : ratFourFifths < cand.Confidence
      case neg =>
        simp only [if_neg hconf2]
        exact ⟨⟨hn1, hn2, hdisj, hreg⟩, fun p hp => Or.inl hp⟩
      case pos =>
        simp only [if_pos hconf2]
        have hsub : (pairsOf (s.rels.filter (fun fk =>
            !(fk.TableName == cand.FromTable && fk.ColumnName == cand.FromColumn)))).Sublist
            (pairsOf s.rels) :=
          List.Sublist.map fkPair (List.filter_sublist s.rels)
        have hq : ∀ fk ∈ s.rels.filter (fun fk =>
            !(fk.TableName == cand.FromTable && fk.ColumnName == cand.FromColumn)),
            fkPair fk ≠ candPair cand := by
          intro fk hfk heq
          have hqt := (List.mem_filter.mp hfk).2
          have h1 : fk.TableName = cand.FromTable := congrArg Prod.fst heq
          have h2 : fk.ColumnName = cand.FromColumn := congrArg Prod.snd heq
          rw [h1, h2] at hqt
          simp at hqt
        constructor
        · refine ⟨hn1.sublist hsub, nodup_concat_cand _ _ hn2 hcp, ?_, ?_⟩
          · intro p hp
            rw [pairsOf_concat_cand]
            intro hp2
            rcases List.mem_append.mp hp2 with h | h
            · exact hdisj p (hsub.subset hp) h
            · rcases List.mem_singleton.mp h with rfl
              obtain ⟨fk, hfkmem, hfkp⟩ := List.mem_map.mp hp
              exact hq fk hfkmem hfkp
          · intro p hpp
            rw [mapSet_lookup]
            by_cases hpk : relKey p.1 p.2 = relKey cand.FromTable cand.FromColumn
            · simp [hpk]
            · rw [if_neg hpk]
              rcases hpp with hp | hp
              · exact hreg p (Or.inl (hsub.subset hp))
              · rw [pairsOf_concat_cand] at hp
                rcases List.mem_append.mp hp with h | h
                · exact hreg p (Or.inr h)
                · rcases List.mem_singleton.mp h with rfl
                  exact absurd rfl hpk
        · intro p hp
          rw [pairsOf_concat_cand] at hp
          rcases List.mem_append.mp hp with h | h
          · exact Or.inl h
          · exact Or.inr (List.mem_singleton.mp h)

theorem mergeFold_inv :
    ∀ (cands : List Candidate) (s : MergeState),
    MergeInv s → (cands.map candPair).Nodup →
    (∀ c ∈ cands, candPair c ∉ pairsOf s.dataFKs) →
    MergeInv (cands.foldl mergeStep s) := by
  intro cands
  induction cands with
  | nil => intro s h _ _; exact h
  | cons c rest ih =>
    intro s hInv hnd hnotin
    have hcp := hnotin c (List.mem_cons_self c rest)
    obtain ⟨hInv2, hgrow⟩ := mergeStep_inv s c hInv hcp
    rw [List.foldl_cons]
    apply ih (mergeStep s c) hInv2 (List.nodup_cons.mp hnd).2
    intro c2 hc2 hmem
    rcases hgrow _ hmem with h | h
    · exact hnotin c2 (List.mem_cons_of_mem c hc2) h
    · exact (List.nodup_cons.mp hnd).1 (h ▸ List.mem_map_of_mem candPair hc2)

/-- C3 amended: exactly one entry per `(from_table, from_column)` holds
only when the declared and convention-detected stages never target the same
column (and the declared keys and the analyzer candidates are themselves
duplicate-free per column); under those hypotheses the data-candidate loop
preserves uniqueness.  The convention detector itself never consults the
declared keys, so a declared FK whose column also matches a naming
convention yields a duplicate pair (the counterexample). -/
theorem resolveRelationships_unique_per_column_of_disjoint_stages
    (declared : List ForeignKey) (schema : Schema) (cands : List Candidate)
    (h1 : (pairsOf (declared ++ DetectForeignKeysByConvention schema)).Nodup)
    (h2 : (cands.map candPair).Nodup) :
    (pairsOf (resolveRelationships declared schema cands)).Nodup := by
  have hres : resolveRelationships declared schema cands =
      (cands.foldl mergeStep
        { rels := declared ++ DetectForeignKeysByConvention schema
          existing := (declared ++ DetectForeignKeysByConvention schema).foldl
            (fun m fk => mapSet m (relKey fk.TableName fk.ColumnName) fk.RefTableName) []
          dataFKs := [] }).rels ++
      (cands.foldl mergeStep
        { rels := declared ++ DetectForeignKeysByConvention schema
          existing := (declared ++ DetectForeignKeysByConvention schema).foldl
            (fun m fk => mapSet m (relKey fk.TableName fk.ColumnName) fk.RefTableName) []
          dataFKs := [] }).dataFKs := rfl
  have hInv0 : MergeInv
      { rels := declared ++ DetectForeignKeysByConvention schema
        existing := (declared ++ DetectForeignKeysByConvention schema).foldl
          (fun m fk => mapSet m (relKey fk.TableName fk.ColumnName) fk.RefTableName) []
        dataFKs := [] } := by
    refine ⟨h1, List.nodup_nil, ?_, ?_⟩
    · intro p _ hp
      simp [pairsOf] at hp
    · intro p hpp
      rcases hpp with hp | hp
      · obtain ⟨fk, hfk, hfkp⟩ := List.mem_map.mp hp
        rw [lookup_foldl_mapSet]
        subst hfkp
        exact Or.inr ⟨fk, hfk, rfl⟩
      · simp [pairsOf] at hp
  have hInvF := mergeFold_inv cands _ hInv0 h2 (by intro c _ h; simp [pairsOf] at h)
  obtain ⟨hf1, hf2, hf3, _⟩ := hInvF
  rw [hres, pairsOf_append]
  exact hf1.append hf2 (fun p hp hp2 => hf3 p hp hp2)

/-- Witness for the C3 amended theorem: no declared keys, the
`users`/`posts` schema and the single high-confidence candidate for
`emp.boss`; the resulting relationship list is duplicate-free per column. -/
theorem resolveRelationships_unique_per_column_of_disjoint_stages_witness :
    (pairsOf ([] ++ DetectForeignKeysByConvention schemaUP)).Nodup ∧
    (([candBoss].map candPair).Nodup) ∧
    (pairsOf (resolveRelationships [] schemaUP [candBoss])).Nodup :=
  ⟨by decide, by decide,
   resolveRelationships_unique_per_column_of_disjoint_stages [] schemaUP [candBoss]
     (by decide) (by decide)⟩

end MTD
